import Mathlib

/-!
# Shallow embedding of the olmocr benchmark driver

This file embeds the scoring logic of `olmocr/bench/benchmark.py` (and the
backup-naming step of `olmocr/bench/gt/update_gt.py`) as executable Lean
definitions, and proves the testable properties of the specification
against them.

Modelling conventions:
* Python floats are modelled by `ℚ` (all the arithmetic in question is
  ratios of small integers and their means).
* File names are modelled by `String`; candidate output folders are
  modelled as flat lists of file names (the relative path of a generated
  file equals its base name).
* The thread pool in `evaluate_candidate` delivers completed futures in an
  arbitrary order; the aggregation loop is modelled as a fold over the
  per-test results in some order, which is all the proved properties use.
* Reading a repeat file and running a test's matching logic on it are
  effectful; a single repeat evaluation is modelled by the `RepeatOutcome`
  sum type recording which of the three branches of the Python `try`
  blocks was taken.
-/

/-- One loaded assertion record (`BasePDFTest` in `olmocr/bench/tests.py`):
its unique `id`, the relative path of the source `pdf`, the 1-based `page`,
and the assertion `type` tag. -/
structure BasePDFTest where
  id : String
  pdf : String
  page : Nat
  type : String
  deriving DecidableEq, Repr

/-- Outcome of handling one repeat file inside `process_test`
(`benchmark.py` lines 128–145): either the `open`/`read` raised
(`readError`), or `test.run` raised (`runError`), or `test.run` returned a
`(passed, explanation)` pair (`result`). -/
inductive RepeatOutcome where
  | readError (msg : String)
  | runError (msg : String)
  | result (passed : Bool) (explanation : String)
  deriving DecidableEq, Repr

/-- Mutable state of the repeat loop in `process_test`
(`benchmark.py` lines 125–145): `repeat_passes`, `num_repeats`, the
collected failure `explanations` and the `local_errors` list. -/
structure RepeatState where
  repeatPasses : Nat
  numRepeats : Nat
  explanations : List String
  localErrors : List String
  deriving DecidableEq, Repr

/-- One iteration of the `for md_path in page_md_files` loop of
`process_test`: `num_repeats` is incremented first; a read error appends a
local error and `continue`s; a matching exception appends a local error and
the exception text as an explanation; a returned result bumps
`repeat_passes` on a pass and records the explanation on a failure. -/
def repeatStep (st : RepeatState) (o : RepeatOutcome) : RepeatState :=
  let st := { st with numRepeats := st.numRepeats + 1 }
  match o with
  | .readError msg => { st with localErrors := st.localErrors ++ [msg] }
  | .runError msg =>
      { st with localErrors := st.localErrors ++ [msg],
                explanations := st.explanations ++ [msg] }
  | .result passed explanation =>
      if passed then { st with repeatPasses := st.repeatPasses + 1 }
      else { st with explanations := st.explanations ++ [explanation] }

/-- The whole repeat loop of `process_test`, starting from zeroed counters
and empty lists. -/
def processRepeats (outcomes : List RepeatOutcome) : RepeatState :=
  outcomes.foldl repeatStep ⟨0, 0, [], []⟩

/-- `test_avg = repeat_passes / num_repeats if num_repeats > 0 else 0.0`
(`benchmark.py` line 147). -/
def testAvg (st : RepeatState) : ℚ :=
  if st.numRepeats > 0 then (st.repeatPasses : ℚ) / (st.numRepeats : ℚ) else 0

/-- `final_passed = test_avg > 0.5` (`benchmark.py` line 148). -/
def finalPassed (st : RepeatState) : Bool :=
  decide ((1 : ℚ) / 2 < testAvg st)

/-- Number of repeats whose outcome was an actual result (no read error and
no matching exception); this is what the denominator would be if errored
repeats were excluded from it. -/
def resultCount (outcomes : List RepeatOutcome) : Nat :=
  outcomes.countP fun o => match o with | .result _ _ => true | _ => false

/-- Number of repeats whose outcome was a passed result. -/
def passCount (outcomes : List RepeatOutcome) : Nat :=
  outcomes.countP fun o => match o with | .result true _ => true | _ => false

/-- Number of repeats whose outcome was an error (read or matching). -/
def errorCount (outcomes : List RepeatOutcome) : Nat :=
  outcomes.countP fun o => match o with | .result _ _ => false | _ => true

theorem repeatStep_numRepeats (st : RepeatState) (o : RepeatOutcome) :
    (repeatStep st o).numRepeats = st.numRepeats + 1 := by
  cases o with
  | readError msg => rfl
  | runError msg => rfl
  | result passed explanation =>
      cases passed <;> rfl

theorem repeatStep_repeatPasses (st : RepeatState) (o : RepeatOutcome) :
    (repeatStep st o).repeatPasses =
      st.repeatPasses + (match o with | .result true _ => 1 | _ => 0) := by
  cases o with
  | readError msg => rfl
  | runError msg => rfl
  | result passed explanation => cases passed <;> rfl

theorem repeatStep_localErrors_length (st : RepeatState) (o : RepeatOutcome) :
    (repeatStep st o).localErrors.length =
      st.localErrors.length + (match o with | .result _ _ => 0 | _ => 1) := by
  cases o with
  | readError msg => simp [repeatStep]
  | runError msg => simp [repeatStep]
  | result passed explanation => cases passed <;> simp [repeatStep]

/-- Generalized characterization of the fold behind `processRepeats`. -/
theorem foldl_repeatStep_counts (outcomes : List RepeatOutcome) :
    ∀ st : RepeatState,
      (outcomes.foldl repeatStep st).numRepeats = st.numRepeats + outcomes.length ∧
      (outcomes.foldl repeatStep st).repeatPasses = st.repeatPasses + passCount outcomes ∧
      (outcomes.foldl repeatStep st).localErrors.length =
        st.localErrors.length + errorCount outcomes := by
  induction outcomes with
  | nil => intro st; simp [passCount, errorCount]
  | cons o rest ih =>
      intro st
      obtain ⟨h1, h2, h3⟩ := ih (repeatStep st o)
      refine ⟨?_, ?_, ?_⟩
      · rw [List.foldl_cons, h1, repeatStep_numRepeats]
        simp [Nat.add_assoc, Nat.add_comm 1]
      · rw [List.foldl_cons, h2, repeatStep_repeatPasses]
        cases o with
        | readError msg => simp [passCount, List.countP_cons]
        | runError msg => simp [passCount, List.countP_cons]
        | result passed explanation =>
            cases passed
            · simp [passCount, List.countP_cons]
            · simp [passCount, List.countP_cons]
              omega
      · rw [List.foldl_cons, h3, repeatStep_localErrors_length]
        cases o with
        | readError msg => simp [errorCount, List.countP_cons]; omega
        | runError msg => simp [errorCount, List.countP_cons]; omega
        | result passed explanation =>
            cases passed <;> simp [errorCount, List.countP_cons]

theorem processRepeats_numRepeats (outcomes : List RepeatOutcome) :
    (processRepeats outcomes).numRepeats = outcomes.length := by
  have h := (foldl_repeatStep_counts outcomes ⟨0, 0, [], []⟩).1
  simpa [processRepeats] using h

theorem processRepeats_repeatPasses (outcomes : List RepeatOutcome) :
    (processRepeats outcomes).repeatPasses = passCount outcomes := by
  have h := (foldl_repeatStep_counts outcomes ⟨0, 0, [], []⟩).2.1
  simpa [processRepeats] using h

theorem processRepeats_localErrors (outcomes : List RepeatOutcome) :
    (processRepeats outcomes).localErrors.length = errorCount outcomes := by
  have h := (foldl_repeatStep_counts outcomes ⟨0, 0, [], []⟩).2.2
  simpa [processRepeats] using h

theorem passCount_le_length (outcomes : List RepeatOutcome) :
    passCount outcomes ≤ outcomes.length :=
  List.countP_le_length _

/-- C2: for a nonempty list of repeat outcomes, the pass ratio `test_avg`
lies in `[0, 1]`, and `final_passed` holds iff the ratio exceeds `1/2`
strictly, so a ratio of exactly `1/2` yields `final_passed = false`. -/
theorem pass_ratio_bounds_and_majority (outcomes : List RepeatOutcome)
    (h : outcomes ≠ []) :
    0 ≤ testAvg (processRepeats outcomes) ∧
    testAvg (processRepeats outcomes) ≤ 1 ∧
    (finalPassed (processRepeats outcomes) = true ↔
      (1 : ℚ) / 2 < testAvg (processRepeats outcomes)) ∧
    (testAvg (processRepeats outcomes) = 1 / 2 →
      finalPassed (processRepeats outcomes) = false) := by
  have hn : (processRepeats outcomes).numRepeats = outcomes.length :=
    processRepeats_numRepeats outcomes
  have hp : (processRepeats outcomes).repeatPasses = passCount outcomes :=
    processRepeats_repeatPasses outcomes
  have hlen : 0 < outcomes.length := List.length_pos.mpr h
  have hpos : 0 < (processRepeats outcomes).numRepeats := by omega
  have havg : testAvg (processRepeats outcomes) =
      ((processRepeats outcomes).repeatPasses : ℚ) /
        ((processRepeats outcomes).numRepeats : ℚ) := by
    simp [testAvg, hpos]
  have hden : (0 : ℚ) < ((processRepeats outcomes).numRepeats : ℚ) := by
    exact_mod_cast hpos
  refine ⟨?_, ?_, ?_, ?_⟩
  · rw [havg]
    positivity
  · rw [havg]
    rw [div_le_one hden]
    have hle : (processRepeats outcomes).repeatPasses ≤
        (processRepeats outcomes).numRepeats := by
      rw [hn, hp]; exact passCount_le_length outcomes
    exact_mod_cast hle
  · simp [finalPassed]
  · intro heq
    simp [finalPassed, heq]

/-- Witness for `pass_ratio_bounds_and_majority` at a concrete two-repeat
input (one pass, one fail: ratio exactly `1/2`, `final_passed = false`). -/
theorem pass_ratio_bounds_and_majority_witness :
    ([RepeatOutcome.result true "", RepeatOutcome.result false "no"] ≠
      ([] : List RepeatOutcome)) ∧
    (0 ≤ testAvg (processRepeats
        [RepeatOutcome.result true "", RepeatOutcome.result false "no"]) ∧
     testAvg (processRepeats
        [RepeatOutcome.result true "", RepeatOutcome.result false "no"]) ≤ 1 ∧
     (finalPassed (processRepeats
        [RepeatOutcome.result true "", RepeatOutcome.result false "no"]) = true ↔
       (1 : ℚ) / 2 < testAvg (processRepeats
        [RepeatOutcome.result true "", RepeatOutcome.result false "no"])) ∧
     (testAvg (processRepeats
        [RepeatOutcome.result true "", RepeatOutcome.result false "no"]) = 1 / 2 →
       finalPassed (processRepeats
        [RepeatOutcome.result true "", RepeatOutcome.result false "no"]) = false)) :=
  ⟨by decide, pass_ratio_bounds_and_majority _ (by decide)⟩

/-- C3 counterexample: the claim says a repeat whose file read raises is
excluded from the denominator of the pass ratio. In the code,
`num_repeats += 1` runs before the `open` call, so with one passing repeat
and one unreadable repeat the denominator is `2` (not the `1` actual
results), the ratio is `1/2` and the test is declared failed — the errored
repeat acts as a failing repeat, not as an excluded one (exclusion would
give ratio `1` and a pass). -/
theorem read_error_counts_in_denominator :
    (processRepeats [RepeatOutcome.result true "ok",
        RepeatOutcome.readError "boom"]).numRepeats = 2 ∧
    resultCount [RepeatOutcome.result true "ok",
        RepeatOutcome.readError "boom"] = 1 ∧
    (processRepeats [RepeatOutcome.result true "ok",
        RepeatOutcome.readError "boom"]).numRepeats ≠
      resultCount [RepeatOutcome.result true "ok",
        RepeatOutcome.readError "boom"] ∧
    testAvg (processRepeats [RepeatOutcome.result true "ok",
        RepeatOutcome.readError "boom"]) = 1 / 2 ∧
    finalPassed (processRepeats [RepeatOutcome.result true "ok",
        RepeatOutcome.readError "boom"]) = false := by
  refine ⟨rfl, rfl, by decide, ?_, ?_⟩
  · show testAvg ⟨1, 2, [], ["boom"]⟩ = 1 / 2
    norm_num [testAvg]
  · show finalPassed ⟨1, 2, [], ["boom"]⟩ = false
    rw [finalPassed]
    norm_num [testAvg]

/-- C3 amended: a read error on a repeat file, and likewise a
matching-logic exception, is recorded as a local error, but the repeat
still counts in the denominator `num_repeats` (incremented before the
`try`) and never in the numerator `repeat_passes`, so it behaves as a
failing repeat; the assertion still scores on the remaining repeats
(`test_avg` = passing results over all repeats, errored ones included). -/
theorem repeat_errors_recorded_and_fail (outcomes : List RepeatOutcome) :
    (processRepeats outcomes).numRepeats = outcomes.length ∧
    (processRepeats outcomes).repeatPasses = passCount outcomes ∧
    (processRepeats outcomes).localErrors.length = errorCount outcomes ∧
    (outcomes ≠ [] →
      testAvg (processRepeats outcomes) =
        (passCount outcomes : ℚ) / (outcomes.length : ℚ)) := by
  refine ⟨processRepeats_numRepeats outcomes, processRepeats_repeatPasses outcomes,
    processRepeats_localErrors outcomes, ?_⟩
  intro h
  have hlen : 0 < outcomes.length := List.length_pos.mpr h
  have hpos : 0 < (processRepeats outcomes).numRepeats := by
    rw [processRepeats_numRepeats]; exact hlen
  rw [testAvg, if_pos hpos, processRepeats_numRepeats, processRepeats_repeatPasses]

/-- Witness for `repeat_errors_recorded_and_fail` at a concrete input with
one passing result, one read error and one matching exception. -/
theorem repeat_errors_recorded_and_fail_witness :
    (processRepeats [RepeatOutcome.result true "ok", RepeatOutcome.readError "e1",
        RepeatOutcome.runError "e2"]).numRepeats = 3 ∧
    (processRepeats [RepeatOutcome.result true "ok", RepeatOutcome.readError "e1",
        RepeatOutcome.runError "e2"]).repeatPasses = 1 ∧
    (processRepeats [RepeatOutcome.result true "ok", RepeatOutcome.readError "e1",
        RepeatOutcome.runError "e2"]).localErrors.length = 2 ∧
    testAvg (processRepeats [RepeatOutcome.result true "ok",
        RepeatOutcome.readError "e1", RepeatOutcome.runError "e2"]) = 1 / 3 := by
  obtain ⟨h1, h2, h3, h4⟩ := repeat_errors_recorded_and_fail
    [RepeatOutcome.result true "ok", RepeatOutcome.readError "e1",
      RepeatOutcome.runError "e2"]
  have h4c := h4 (by decide)
  refine ⟨h1, h2, h3, ?_⟩
  rw [h4c]
  norm_num [passCount]

/-! ## File-name matching

`evaluate_candidate` discovers generated markdown files with the anchored
regular expression `^{re.escape(md_base)}_pg\d+_repeat\d+\.md$`, and
`process_test` filters them per page with `re.search(f"_pg{page}_", name)`.
Both are embedded as deterministic matchers over character lists; the
greedy `\d+` groups are always followed by a non-digit literal, so maximal
munch is equivalent to the regex semantics. -/

/-- Consume the literal `pat` from the front of `l`, returning the rest. -/
def matchLit : List Char → List Char → Option (List Char)
  | [], l => some l
  | _ :: _, [] => none
  | c :: cs, d :: ds => if c = d then matchLit cs ds else none

/-- Drop a maximal run of ASCII digits from the front. -/
def dropDigits : List Char → List Char
  | [] => []
  | c :: rest => if c.isDigit then dropDigits rest else c :: rest

/-- Consume one or more ASCII digits from the front (the `\d+` group). -/
def matchDigits1 : List Char → Option (List Char)
  | [] => none
  | c :: rest => if c.isDigit then some (dropDigits rest) else none

/-- Match `_pg\d+_repeat\d+\.md` against the whole of `l`. -/
def matchRepeatTail (l : List Char) : Bool :=
  match matchLit "_pg".toList l with
  | none => false
  | some l1 =>
    match matchDigits1 l1 with
    | none => false
    | some l2 =>
      match matchLit "_repeat".toList l2 with
      | none => false
      | some l3 =>
        match matchDigits1 l3 with
        | none => false
        | some l4 => decide (l4 = ".md".toList)

/-- `^{re.escape(md_base)}_pg\d+_repeat\d+\.md$` as a full match of `name`
(`benchmark.py` line 69). -/
def isRepeatNameFor (mdBase name : String) : Bool :=
  match matchLit mdBase.toList name.toList with
  | none => false
  | some rest => matchRepeatTail rest

/-- `pat` is a prefix of `l`. -/
def startsWithChars : List Char → List Char → Bool
  | [], _ => true
  | _ :: _, [] => false
  | c :: cs, d :: ds => c = d && startsWithChars cs ds

/-- `pat` occurs as a contiguous substring of `l` (the `re.search`
semantics for a literal pattern). -/
def containsSub (pat : List Char) : List Char → Bool
  | [] => startsWithChars pat []
  | c :: rest => startsWithChars pat (c :: rest) || containsSub pat rest

/-- The literal page marker `_pg{page}_` searched for in
`benchmark.py` line 105. -/
def pageTag (page : Nat) : String := "_pg" ++ toString page ++ "_"

/-- File discovery of `evaluate_candidate` (`benchmark.py` lines 66–76)
for one PDF: first collect all files matching the repeat pattern; only if
there are none, fall back to the single file named exactly after the PDF
when it exists in the folder. -/
def discoverMdFiles (allFiles : List String) (mdBase : String) : List String :=
  let mdFiles := allFiles.filter fun f => isRepeatNameFor mdBase f
  if mdFiles.isEmpty then
    if allFiles.contains (mdBase ++ ".md") then [mdBase ++ ".md"] else []
  else mdFiles

/-- Page-specific file selection of `process_test` (`benchmark.py` lines
104–113): filter the discovered files by the `_pg{page}_` marker; if that
is empty but some files were discovered, use those whose name is exactly
`{md_base}.md`. -/
def selectPageFiles (mdFiles : List String) (mdBase : String) (page : Nat) :
    List String :=
  let pageMd := mdFiles.filter fun f => containsSub (pageTag page).toList f.toList
  if pageMd.isEmpty && !mdFiles.isEmpty then
    let exact := mdFiles.filter fun f => f = mdBase ++ ".md"
    if !exact.isEmpty then exact else pageMd
  else pageMd

theorem matchLit_self_append (p r : List Char) : matchLit p (p ++ r) = some r := by
  induction p with
  | nil => rfl
  | cons c cs ih => simp [matchLit, ih]

/-- The whole-PDF file never matches the repeat pattern for its own base. -/
theorem isRepeatNameFor_whole (mdBase : String) :
    isRepeatNameFor mdBase (mdBase ++ ".md") = false := by
  have h : (mdBase ++ ".md").toList = mdBase.toList ++ ".md".toList := rfl
  rw [isRepeatNameFor, h, matchLit_self_append]
  rfl

/-- C4 counterexample: candidate folder containing a repeat file for page 2
of `doc.pdf` and the whole-PDF file `doc.md`. Discovery finds the repeat
file (so the candidate "was found to have generated files"), the whole-PDF
file is present, yet page 1 — which has no repeat file — selects no
document at all instead of falling back to `doc.md`: the fallback search
runs over the discovered repeat files only, not over the candidate
folder. -/
theorem whole_pdf_fallback_page_counterexample :
    discoverMdFiles ["doc_pg2_repeat1.md", "doc.md"] "doc" =
      ["doc_pg2_repeat1.md"] ∧
    ("doc.md" : String) ∈ ["doc_pg2_repeat1.md", "doc.md"] ∧
    selectPageFiles
      (discoverMdFiles ["doc_pg2_repeat1.md", "doc.md"] "doc") "doc" 1 = [] ∧
    selectPageFiles
      (discoverMdFiles ["doc_pg2_repeat1.md", "doc.md"] "doc") "doc" 1 ≠
      ["doc.md"] := by
  refine ⟨by decide, by decide, by decide, by decide⟩

/-- C4 amended: the whole-PDF fallback applies only when the candidate has
no repeat-pattern files at all for that PDF — then the whole-PDF file is
the single discovered file and it is selected for every page. When
repeat-pattern files do exist, page selection returns exactly the
discovered files carrying that page's marker, and the whole-PDF file is
never consulted (it is not among the discovered files), so a page without
its own repeat file gets no document. -/
theorem whole_pdf_fallback_only_without_repeats (allFiles : List String)
    (mdBase : String) (page : Nat) :
    ((allFiles.filter fun f => isRepeatNameFor mdBase f) = [] →
      (mdBase ++ ".md") ∈ allFiles →
      discoverMdFiles allFiles mdBase = [mdBase ++ ".md"] ∧
      selectPageFiles (discoverMdFiles allFiles mdBase) mdBase page =
        [mdBase ++ ".md"]) ∧
    ((allFiles.filter fun f => isRepeatNameFor mdBase f) ≠ [] →
      discoverMdFiles allFiles mdBase =
        (allFiles.filter fun f => isRepeatNameFor mdBase f) ∧
      selectPageFiles (discoverMdFiles allFiles mdBase) mdBase page =
        (allFiles.filter fun f => isRepeatNameFor mdBase f).filter
          (fun f => containsSub (pageTag page).toList f.toList)) := by
  constructor
  · intro hno hmem
    have hdisc : discoverMdFiles allFiles mdBase = [mdBase ++ ".md"] := by
      rw [discoverMdFiles]
      simp only [hno, List.isEmpty_nil, if_true]
      simp [List.contains_iff_exists_mem_beq] at *
      exact hmem
    refine ⟨hdisc, ?_⟩
    rw [hdisc, selectPageFiles]
    by_cases htag :
        containsSub (pageTag page).toList (mdBase ++ ".md").toList = true
    · simp [htag]
    · simp only [Bool.not_eq_true] at htag
      simp [htag]
  · intro hne
    have hdisc : discoverMdFiles allFiles mdBase =
        allFiles.filter fun f => isRepeatNameFor mdBase f := by
      rw [discoverMdFiles]
      simp [List.isEmpty_iff, hne]
    refine ⟨hdisc, ?_⟩
    rw [hdisc, selectPageFiles]
    set reps := allFiles.filter fun f => isRepeatNameFor mdBase f with hreps
    set pageMd := reps.filter (fun f => containsSub (pageTag page).toList f.toList)
      with hpm
    have hexact : (reps.filter fun f => f = mdBase ++ ".md") = [] := by
      rw [List.filter_eq_nil_iff]
      intro f hf
      have hrep : isRepeatNameFor mdBase f = true := List.of_mem_filter hf
      simp only [decide_eq_true_eq]
      intro heq
      rw [heq, isRepeatNameFor_whole] at hrep
      exact Bool.false_ne_true hrep
    by_cases hp : pageMd.isEmpty
    · simp [hp, hexact, List.isEmpty_iff.mp hp]
    · simp [hp]

/-- Witness for `whole_pdf_fallback_only_without_repeats`: with only the
whole-PDF file present the fallback is selected for page 3; with a repeat
file present the page filter decides. -/
theorem whole_pdf_fallback_only_without_repeats_witness :
    (discoverMdFiles ["doc.md"] "doc" = ["doc.md"] ∧
      selectPageFiles (discoverMdFiles ["doc.md"] "doc") "doc" 3 = ["doc.md"]) ∧
    (discoverMdFiles ["doc_pg2_repeat1.md", "doc.md"] "doc" =
        ["doc_pg2_repeat1.md"] ∧
      selectPageFiles (discoverMdFiles ["doc_pg2_repeat1.md", "doc.md"] "doc")
          "doc" 2 = ["doc_pg2_repeat1.md"]) := by
  constructor
  · exact (whole_pdf_fallback_only_without_repeats ["doc.md"] "doc" 3).1
      (by decide) (by decide)
  · have h := (whole_pdf_fallback_only_without_repeats
      ["doc_pg2_repeat1.md", "doc.md"] "doc" 2).2 (by decide)
    refine ⟨by decide, ?_⟩
    rw [h.2]
    decide

/-! ## Backup-file filtering

`main` filters the discovered `.jsonl` dataset files with
`re.search(r"_\d{8}_\d{6}\.jsonl$", f)` (`benchmark.py` line 257), and
`backup_file` in `gt/update_gt.py` names a backup
`{base}_{YYYYMMDD_HHMMSS}{ext}` via `os.path.splitext`. The regex pattern
has fixed width 22, so a match exists iff the final 22 characters are an
underscore, eight digits, an underscore, six digits and `.jsonl`; the
check is done on the reversed character list. -/

/-- Consume exactly `n` ASCII digits from the front of a list. -/
def takeDigitsN : Nat → List Char → Option (List Char)
  | 0, rest => some rest
  | _ + 1, [] => none
  | n + 1, c :: rest => if c.isDigit then takeDigitsN n rest else none

/-- Match the reversed pattern of `_\d{8}_\d{6}\.jsonl$`. -/
def backupSuffixRev : List Char → Bool
  | 'l' :: 'n' :: 'o' :: 's' :: 'j' :: '.' :: rest =>
    match takeDigitsN 6 rest with
    | none => false
    | some r1 =>
      match r1 with
      | '_' :: r2 =>
        match takeDigitsN 8 r2 with
        | none => false
        | some r3 =>
          match r3 with
          | '_' :: _ => true
          | _ => false
      | _ => false
  | _ => false

/-- `re.search(r"_\d{8}_\d{6}\.jsonl$", name)` as a Boolean. -/
def hasBackupSuffix (name : String) : Bool :=
  backupSuffixRev name.toList.reverse

/-- The dataset-file filter of `benchmark.py` line 257: keep only the
`.jsonl` files that do not carry the backup timestamp suffix. -/
def filterJsonlFiles (files : List String) : List String :=
  files.filter fun f => !hasBackupSuffix f

/-- `os.path.splitext` on a path without directory separators: the
extension starts at the last dot, except that a basename consisting of
leading dots only has no extension. -/
def splitExtChars (l : List Char) : List Char × List Char :=
  let r := l.reverse
  let extRev := r.takeWhile fun c => c != '.'
  match r.drop extRev.length with
  | [] => (l, [])
  | _ :: before =>
      if before.all (fun c => c = '.') then (l, [])
      else (before.reverse, '.' :: extRev.reverse)

/-- `backup_file` of `gt/update_gt.py` (lines 32–50): split the path into
base and extension and insert `_{timestamp}` between them. -/
def backupFilePath (filePath : String) (timestamp : String) : String :=
  let p := splitExtChars filePath.toList
  String.mk (p.1 ++ "_".toList ++ timestamp.toList ++ p.2)

theorem takeDigitsN_append (ds : List Char) (rest : List Char)
    (hd : ∀ c ∈ ds, c.isDigit) :
    takeDigitsN ds.length (ds ++ rest) = some rest := by
  induction ds with
  | nil => rfl
  | cons c cs ih =>
      have hc : c.isDigit := hd c (List.mem_cons_self c cs)
      have ihc := ih fun d hdm => hd d (List.mem_cons_of_mem c hdm)
      simp [takeDigitsN, hc, ihc]

theorem takeWhile_ne_dot_append (pre : List Char) (rest : List Char)
    (hp : ∀ c ∈ pre, c ≠ '.') :
    List.takeWhile (fun c => c != '.') (pre ++ '.' :: rest) = pre := by
  induction pre with
  | nil => simp [List.takeWhile]
  | cons c cs ih =>
      have hc : c ≠ '.' := hp c (List.mem_cons_self c cs)
      have hcb : (c != '.') = true := bne_iff_ne.mpr hc
      have ihc := ih fun d hdm => hp d (List.mem_cons_of_mem c hdm)
      simp [List.takeWhile, hcb, ihc]

/-- Reversed backup suffix, exposed with explicit digit blocks. -/
theorem backupSuffixRev_shape (d6r d8r tail : List Char)
    (h6 : d6r.length = 6) (hd6 : ∀ c ∈ d6r, c.isDigit)
    (h8 : d8r.length = 8) (hd8 : ∀ c ∈ d8r, c.isDigit) :
    backupSuffixRev ('l' :: 'n' :: 'o' :: 's' :: 'j' :: '.' ::
      (d6r ++ '_' :: (d8r ++ '_' :: tail))) = true := by
  have ht6 : takeDigitsN 6 (d6r ++ '_' :: (d8r ++ '_' :: tail)) =
      some ('_' :: (d8r ++ '_' :: tail)) := by
    rw [← h6]; exact takeDigitsN_append d6r _ hd6
  have ht8 : takeDigitsN 8 (d8r ++ '_' :: tail) = some ('_' :: tail) := by
    rw [← h8]; exact takeDigitsN_append d8r _ hd8
  simp [backupSuffixRev, ht6, ht8]

/-- A name of the backup shape always ends in the timestamp suffix. -/
theorem backupSuffix_of_shape (stem d8 d6 : String)
    (h8len : d8.toList.length = 8) (h8d : ∀ c ∈ d8.toList, c.isDigit)
    (h6len : d6.toList.length = 6) (h6d : ∀ c ∈ d6.toList, c.isDigit) :
    hasBackupSuffix (stem ++ "_" ++ d8 ++ "_" ++ d6 ++ ".jsonl") = true := by
  have hlist : (stem ++ "_" ++ d8 ++ "_" ++ d6 ++ ".jsonl").toList =
      ((((stem.toList ++ ['_']) ++ d8.toList) ++ ['_']) ++ d6.toList) ++
        ['.', 'j', 's', 'o', 'n', 'l'] := rfl
  have hform : (stem ++ "_" ++ d8 ++ "_" ++ d6 ++ ".jsonl").toList.reverse =
      'l' :: 'n' :: 'o' :: 's' :: 'j' :: '.' ::
        (d6.toList.reverse ++ '_' ::
          (d8.toList.reverse ++ '_' :: stem.toList.reverse)) := by
    rw [hlist]
    simp only [List.reverse_append]
    rfl
  rw [hasBackupSuffix, hform]
  exact backupSuffixRev_shape _ _ _
    (by rw [List.length_reverse]; exact h6len)
    (fun c hc => h6d c (List.mem_reverse.mp hc))
    (by rw [List.length_reverse]; exact h8len)
    (fun c hc => h8d c (List.mem_reverse.mp hc))

/-- `os.path.splitext` on a list of the shape `{stem}.jsonl`, when the
stem is nonempty and dot-free, splits off exactly `.jsonl`. -/
theorem splitExtChars_append_ext (stemL : List Char) (hne : stemL ≠ [])
    (hnd : ∀ c ∈ stemL, c ≠ '.') :
    splitExtChars (stemL ++ ['.', 'j', 's', 'o', 'n', 'l']) =
      (stemL, ['.', 'j', 's', 'o', 'n', 'l']) := by
  have hrev : (stemL ++ ['.', 'j', 's', 'o', 'n', 'l']).reverse =
      ['l', 'n', 'o', 's', 'j'] ++ '.' :: stemL.reverse := by
    rw [List.reverse_append]; rfl
  have hpre : ∀ c ∈ (['l', 'n', 'o', 's', 'j'] : List Char), c ≠ '.' := by decide
  have htw : List.takeWhile (fun c => c != '.')
      ((stemL ++ ['.', 'j', 's', 'o', 'n', 'l']).reverse) =
      ['l', 'n', 'o', 's', 'j'] := by
    rw [hrev]
    exact takeWhile_ne_dot_append _ _ hpre
  simp only [splitExtChars, htw, hrev]
  show (match ('.' :: stemL.reverse : List Char) with
    | [] => (stemL ++ ['.', 'j', 's', 'o', 'n', 'l'], ([] : List Char))
    | _ :: before =>
      if before.all (fun c => c = '.') then
        (stemL ++ ['.', 'j', 's', 'o', 'n', 'l'], [])
      else (before.reverse, '.' :: (['l', 'n', 'o', 's', 'j'] : List Char).reverse)) =
      (stemL, ['.', 'j', 's', 'o', 'n', 'l'])
  obtain ⟨c, cs, hcons⟩ := List.exists_cons_of_ne_nil hne
  have hmemL : c ∈ stemL := hcons ▸ List.mem_cons_self c cs
  have hcne : c ≠ '.' := hnd c hmemL
  have hmem : c ∈ stemL.reverse := List.mem_reverse.mpr hmemL
  have hall : (stemL.reverse.all fun c => c = '.') = false := by
    refine Bool.eq_false_iff.mpr ?_
    intro hforall
    rw [List.all_eq_true] at hforall
    exact hcne (by simpa using hforall c hmem)
  simp only [hall]
  simp [List.reverse_reverse]

/-- `(a ++ b).data = a.data ++ b.data` for strings, definitionally. -/
theorem string_data_append (a b : String) : (a ++ b).data = a.data ++ b.data := rfl

/-- C10: any `.jsonl` name carrying a `_YYYYMMDD_HHMMSS` timestamp right
before the extension survives no run of the dataset-file filter, and the
backup step of the ground-truth updater produces exactly such a name
(splitting `{stem}.jsonl` at the extension and inserting the timestamp),
so a benchmark run never loads a backed-up copy. -/
theorem backup_names_excluded_from_loading (files : List String)
    (stem d8 d6 : String)
    (hne : stem.toList ≠ []) (hnd : ∀ c ∈ stem.toList, c ≠ '.')
    (h8len : d8.toList.length = 8) (h8d : ∀ c ∈ d8.toList, c.isDigit)
    (h6len : d6.toList.length = 6) (h6d : ∀ c ∈ d6.toList, c.isDigit) :
    backupFilePath (stem ++ ".jsonl") (d8 ++ "_" ++ d6) =
      stem ++ "_" ++ d8 ++ "_" ++ d6 ++ ".jsonl" ∧
    (stem ++ "_" ++ d8 ++ "_" ++ d6 ++ ".jsonl") ∉ filterJsonlFiles files ∧
    backupFilePath (stem ++ ".jsonl") (d8 ++ "_" ++ d6) ∉ filterJsonlFiles files := by
  have hsuffix := backupSuffix_of_shape stem d8 d6 h8len h8d h6len h6d
  have hmk : backupFilePath (stem ++ ".jsonl") (d8 ++ "_" ++ d6) =
      stem ++ "_" ++ d8 ++ "_" ++ d6 ++ ".jsonl" := by
    have hlist : (stem ++ ".jsonl").toList =
        stem.toList ++ ['.', 'j', 's', 'o', 'n', 'l'] := rfl
    have hsp : splitExtChars (stem ++ ".jsonl").toList =
        (stem.toList, ['.', 'j', 's', 'o', 'n', 'l']) := by
      rw [hlist]
      exact splitExtChars_append_ext _ hne hnd
    apply String.ext
    show (backupFilePath (stem ++ ".jsonl") (d8 ++ "_" ++ d6)).data =
      (stem ++ "_" ++ d8 ++ "_" ++ d6 ++ ".jsonl").data
    rw [backupFilePath]
    simp only [hsp]
    show stem.toList ++ "_".toList ++ (d8 ++ "_" ++ d6).toList ++
        ['.', 'j', 's', 'o', 'n', 'l'] =
      (stem ++ "_" ++ d8 ++ "_" ++ d6 ++ ".jsonl").data
    simp only [string_data_append]
    show stem.toList ++ "_".toList ++ (d8.data ++ "_".data ++ d6.data) ++
        ['.', 'j', 's', 'o', 'n', 'l'] =
      stem.data ++ "_".data ++ d8.data ++ "_".data ++ d6.data ++ ".jsonl".data
    simp [List.append_assoc]
  have hnot : (stem ++ "_" ++ d8 ++ "_" ++ d6 ++ ".jsonl") ∉
      filterJsonlFiles files := by
    intro hmem
    have hkeep := List.of_mem_filter hmem
    rw [hsuffix] at hkeep
    simp at hkeep
  exact ⟨hmk, hnot, hmk ▸ hnot⟩

/-- Witness for `backup_names_excluded_from_loading`: the concrete backup
of `tests.jsonl` stamped `20250102_121314` is filtered out even though it
is present in the data directory. -/
theorem backup_names_excluded_from_loading_witness :
    backupFilePath ("tests" ++ ".jsonl") ("20250102" ++ "_" ++ "121314") ∉
      filterJsonlFiles ["tests.jsonl", "tests_20250102_121314.jsonl"] :=
  (backup_names_excluded_from_loading
    ["tests.jsonl", "tests_20250102_121314.jsonl"] "tests" "20250102" "121314"
    (by decide) (by decide) (by decide) (by decide) (by decide) (by decide)).2.2

/-! ## Final-summary scoring by assertion group

`main` recomputes each candidate's overall score in the final summary
(`benchmark.py` lines 406–443): it walks `all_tests` in order, looks each
test up in the stored `test_results`, accumulates per-JSONL-file
`(total, passed)` counters in an insertion-ordered dictionary, and takes
the plain mean of `passed/total` over the files with `total > 0`. The
dictionary is embedded as an association list updated in place with new
keys appended at the end, exactly the Python `dict` behaviour. -/

/-- One recorded `(test, passed, explanation)` entry of `test_results`. -/
abbrev ResultEntry := BasePDFTest × Bool × String

/-- `test_results`: PDF name → page number → recorded entries. -/
abbrev TestResults := List (String × List (Nat × List ResultEntry))

/-- Association-list lookup with string keys (Python dict read). -/
def alookup {β : Type} (g : String) : List (String × β) → Option β
  | [] => none
  | (k, v) :: rest => if k = g then some v else alookup g rest

/-- `test_results[pdf][page]` guarded by the two `in` checks. -/
def lookupPage (tr : TestResults) (pdf : String) (page : Nat) :
    Option (List ResultEntry) :=
  match alookup pdf tr with
  | none => none
  | some pages =>
    match pages.find? fun e => e.1 = page with
    | none => none
    | some e => some e.2

/-- The summary-loop lookup for one test (`benchmark.py` lines 417–427):
skipped entirely when the candidate has errors; otherwise find the first
recorded entry with the same test id on that PDF page and keep its
`passed` flag unless the explanation is the `"Missing MD files"`
exclusion marker. -/
def evalResult (candErrors : List String) (tr : TestResults)
    (t : BasePDFTest) : Option Bool :=
  if candErrors.isEmpty then
    match lookupPage tr t.pdf t.page with
    | none => none
    | some entries =>
      match entries.find? fun e => e.1.id = t.id with
      | none => none
      | some e => if e.2.2 = "Missing MD files" then none else some e.2.1
  else none

/-- `test_to_jsonl.get(test.id, "unknown")`. -/
def groupOfTest (m : List (String × String)) (t : BasePDFTest) : String :=
  (alookup t.id m).getD "unknown"

/-- Add one optional test result to a `(total, passed)` counter pair. -/
def bumpCount (v : Nat × Nat) (r : Option Bool) : Nat × Nat :=
  match r with
  | none => v
  | some b => (v.1 + 1, if b then v.2 + 1 else v.2)

/-- Update the insertion-ordered group table at key `g` (creating the
entry, as the Python loop does, even when the result is excluded). -/
def updG (acc : List (String × Nat × Nat)) (g : String) (r : Option Bool) :
    List (String × Nat × Nat) :=
  match acc with
  | [] => [(g, bumpCount (0, 0) r)]
  | (k, v) :: rest =>
      if k = g then (k, bumpCount v r) :: rest else (k, v) :: updG rest g r

/-- The summary loop over `all_tests` building `jsonl_results`. -/
def groupFold (groupOf : BasePDFTest → String) (res : BasePDFTest → Option Bool) :
    List BasePDFTest → List (String × Nat × Nat) → List (String × Nat × Nat)
  | [], acc => acc
  | t :: ts, acc => groupFold groupOf res ts (updG acc (groupOf t) (res t))

/-- `passed/total` for every group with `total > 0` (`benchmark.py`
lines 436–440). -/
def ratesOf (entries : List (String × Nat × Nat)) : List ℚ :=
  entries.filterMap fun e =>
    if 0 < e.2.1 then some ((e.2.2 : ℚ) / (e.2.1 : ℚ)) else none

/-- Mean of a rational list, `0` when empty (`benchmark.py` line 443). -/
def meanOf (l : List ℚ) : ℚ := if l.isEmpty then 0 else l.sum / (l.length : ℚ)

/-- `new_overall_score`: the mean of per-JSONL pass rates as computed by
the final summary. -/
def newOverallScore (groupOf : BasePDFTest → String)
    (res : BasePDFTest → Option Bool) (tests : List BasePDFTest) : ℚ :=
  meanOf (ratesOf (groupFold groupOf res tests []))

/-- Number of evaluated assertions of group `g`. -/
def evalCnt (groupOf : BasePDFTest → String) (res : BasePDFTest → Option Bool)
    (g : String) (ts : List BasePDFTest) : Nat :=
  ts.countP fun t => decide (groupOf t = g) && (res t).isSome

/-- Number of passed assertions of group `g`. -/
def passCnt (groupOf : BasePDFTest → String) (res : BasePDFTest → Option Bool)
    (g : String) (ts : List BasePDFTest) : Nat :=
  ts.countP fun t => decide (groupOf t = g) && decide (res t = some true)

/-- The specification-side primary score: the unweighted mean over the
candidate's assertion groups of each group's pass rate `passed/evaluated`,
omitting groups with no evaluated assertion, `0` when no group remains. -/
def specGroupScore (groupOf : BasePDFTest → String)
    (res : BasePDFTest → Option Bool) (tests : List BasePDFTest) : ℚ :=
  meanOf ((tests.map groupOf).dedup.filterMap fun g =>
    if 0 < evalCnt groupOf res g tests then
      some ((passCnt groupOf res g tests : ℚ) / (evalCnt groupOf res g tests : ℚ))
    else none)

/-- Keys of an association list, in order. -/
def keysOf {β : Type} (l : List (String × β)) : List String := l.map Prod.fst

theorem alookup_updG (acc : List (String × Nat × Nat)) (g g0 : String)
    (r : Option Bool) :
    alookup g (updG acc g0 r) =
      if g = g0 then some (bumpCount ((alookup g acc).getD (0, 0)) r)
      else alookup g acc := by
  induction acc with
  | nil =>
      by_cases h : g = g0
      · subst h; simp [updG, alookup]
      · have h2 : ¬(g0 = g) := fun hh => h hh.symm
        simp [updG, alookup, h, h2]
  | cons e rest ih =>
      obtain ⟨k, v⟩ := e
      by_cases hk : k = g0
      · subst hk
        by_cases hg : g = k
        · subst hg
          simp [updG, alookup]
        · have hg2 : ¬(k = g) := fun hh => hg hh.symm
          simp [updG, alookup, hg, hg2]
      · by_cases hg : k = g
        · have hne : ¬(g = g0) := fun hh => hk (hg.trans hh)
          simp [updG, alookup, hk, hg, hne]
        · simp [updG, alookup, hk, hg, ih]

theorem keysOf_updG (acc : List (String × Nat × Nat)) (g : String)
    (r : Option Bool) :
    keysOf (updG acc g r) =
      if g ∈ keysOf acc then keysOf acc else keysOf acc ++ [g] := by
  induction acc with
  | nil => simp [updG, keysOf]
  | cons e rest ih =>
      obtain ⟨k, v⟩ := e
      by_cases hk : k = g
      · subst hk
        simp [updG, keysOf]
      · have hk2 : ¬(g = k) := fun hh => hk hh.symm
        have hcons : keysOf (updG ((k, v) :: rest) g r) =
            k :: keysOf (updG rest g r) := by
          simp [updG, hk, keysOf]
        by_cases hmem : g ∈ keysOf rest
        · have ih2 : keysOf (updG rest g r) = keysOf rest := by
            rw [ih, if_pos hmem]
          rw [hcons, ih2]
          simp only [keysOf] at hmem
          simp [keysOf, hk2, hmem]
        · have ih2 : keysOf (updG rest g r) = keysOf rest ++ [g] := by
            rw [ih, if_neg hmem]
          rw [hcons, ih2]
          simp only [keysOf] at hmem
          simp [keysOf, hk2, hmem]

theorem nodup_keysOf_updG (acc : List (String × Nat × Nat)) (g : String)
    (r : Option Bool) (h : (keysOf acc).Nodup) :
    (keysOf (updG acc g r)).Nodup := by
  rw [keysOf_updG]
  by_cases hmem : g ∈ keysOf acc
  · simpa [hmem] using h
  · simp only [hmem, if_false]
    simp [List.nodup_append, h, hmem]

theorem nodup_keysOf_groupFold (groupOf : BasePDFTest → String)
    (res : BasePDFTest → Option Bool) :
    ∀ (ts : List BasePDFTest) (acc : List (String × Nat × Nat)),
      (keysOf acc).Nodup → (keysOf (groupFold groupOf res ts acc)).Nodup := by
  intro ts
  induction ts with
  | nil => intro acc h; exact h
  | cons t rest ih =>
      intro acc h
      exact ih _ (nodup_keysOf_updG acc (groupOf t) (res t) h)

theorem alookup_isSome_iff {β : Type} (g : String) (l : List (String × β)) :
    (alookup g l).isSome ↔ g ∈ keysOf l := by
  induction l with
  | nil => simp [alookup, keysOf]
  | cons e rest ih =>
      obtain ⟨k, v⟩ := e
      by_cases hk : k = g
      · subst hk; simp [alookup, keysOf]
      · have hk2 : ¬(g = k) := fun hh => hk hh.symm
        simp [alookup, keysOf, hk, hk2, ih]

theorem evalCnt_cons (groupOf : BasePDFTest → String)
    (res : BasePDFTest → Option Bool) (g : String) (t : BasePDFTest)
    (ts : List BasePDFTest) :
    evalCnt groupOf res g (t :: ts) =
      evalCnt groupOf res g ts +
        (if groupOf t = g ∧ (res t).isSome then 1 else 0) := by
  simp only [evalCnt, List.countP_cons]
  by_cases h1 : groupOf t = g <;> by_cases h2 : (res t).isSome = true <;>
    simp [h1, h2]

theorem passCnt_cons (groupOf : BasePDFTest → String)
    (res : BasePDFTest → Option Bool) (g : String) (t : BasePDFTest)
    (ts : List BasePDFTest) :
    passCnt groupOf res g (t :: ts) =
      passCnt groupOf res g ts +
        (if groupOf t = g ∧ res t = some true then 1 else 0) := by
  simp only [passCnt, List.countP_cons]
  by_cases h1 : groupOf t = g <;> by_cases h2 : res t = some true <;>
    simp [h1, h2]

/-- Pointwise characterization of the summary fold: the counter pair
recorded for key `g` is its starting value plus the number of evaluated
(and passed) tests of group `g`, and a key appears iff some test has that
group. -/
theorem alookup_groupFold (groupOf : BasePDFTest → String)
    (res : BasePDFTest → Option Bool) :
    ∀ (ts : List BasePDFTest) (acc : List (String × Nat × Nat)) (g : String),
      alookup g (groupFold groupOf res ts acc) =
        match alookup g acc with
        | some v => some (v.1 + evalCnt groupOf res g ts,
                          v.2 + passCnt groupOf res g ts)
        | none =>
            if g ∈ ts.map groupOf then
              some (evalCnt groupOf res g ts, passCnt groupOf res g ts)
            else none := by
  intro ts
  induction ts with
  | nil =>
      intro acc g
      cases halk : alookup g acc with
      | none => simp [groupFold, halk]
      | some v => simp [groupFold, halk, evalCnt, passCnt]
  | cons t rest ih =>
      intro acc g
      show alookup g (groupFold groupOf res rest (updG acc (groupOf t) (res t))) = _
      rw [ih, alookup_updG]
      by_cases hg : g = groupOf t
      · have hgs : groupOf t = g := hg.symm
        have hmem : g ∈ (t :: rest).map groupOf := by simp [hg]
        rw [if_pos hg]
        cases halk : alookup g acc with
        | none =>
            cases hr : res t with
            | none =>
                simp [bumpCount, evalCnt_cons, passCnt_cons, hgs, hr, hmem]
            | some b =>
                cases b <;>
                  simp [bumpCount, evalCnt_cons, passCnt_cons, hgs, hr, hmem,
                    Nat.add_comm]
        | some v =>
            cases hr : res t with
            | none =>
                simp [bumpCount, evalCnt_cons, passCnt_cons, hgs, hr, hmem]
            | some b =>
                cases b <;>
                  simp [bumpCount, evalCnt_cons, passCnt_cons, hgs, hr, hmem,
                    Nat.add_assoc, Nat.add_comm 1]
      · have hgs : ¬groupOf t = g := fun h => hg h.symm
        rw [if_neg hg]
        cases halk : alookup g acc with
        | none => simp [evalCnt_cons, passCnt_cons, hgs, hg]
        | some v => simp [evalCnt_cons, passCnt_cons, hgs]

/-- The group table written out directly: one entry per distinct group,
carrying that group's evaluated and passed counts. -/
def canonTable (groupOf : BasePDFTest → String) (res : BasePDFTest → Option Bool)
    (ts : List BasePDFTest) : List (String × Nat × Nat) :=
  (ts.map groupOf).dedup.map fun g =>
    (g, evalCnt groupOf res g ts, passCnt groupOf res g ts)

theorem alookup_map_mk (f : String → Nat × Nat) (gs : List String) (g : String) :
    alookup g (gs.map fun k => (k, f k)) = if g ∈ gs then some (f g) else none := by
  induction gs with
  | nil => simp [alookup]
  | cons k rest ih =>
      by_cases hk : k = g
      · subst hk; simp [alookup]
      · have hk2 : ¬(g = k) := fun hh => hk hh.symm
        simp [alookup, hk, hk2, ih]

theorem alookup_eq_some_iff_mem {β : Type} (l : List (String × β))
    (hnd : (keysOf l).Nodup) (g : String) (v : β) :
    alookup g l = some v ↔ (g, v) ∈ l := by
  induction l with
  | nil => simp [alookup]
  | cons e rest ih =>
      obtain ⟨k, w⟩ := e
      have hnp : k ∉ keysOf rest ∧ (keysOf rest).Nodup := by
        simpa [keysOf] using hnd
      by_cases hk : k = g
      · subst hk
        simp only [alookup, if_pos rfl]
        constructor
        · intro h
          injection h with h
          exact List.mem_cons.mpr (Or.inl (by rw [h]))
        · intro h
          rcases List.mem_cons.mp h with h1 | h2
          · injection h1 with h1a h1b
            rw [h1b]
            simp
          · exact absurd (List.mem_map_of_mem Prod.fst h2) hnp.1
      · have hk2 : ¬(g = k) := fun hh => hk hh.symm
        simp only [alookup, if_neg hk]
        rw [ih hnp.2]
        simp [List.mem_cons, Prod.ext_iff, hk2]

/-- The summary fold from the empty dictionary is a permutation of the
direct per-group table. -/
theorem groupFold_perm_canonTable (groupOf : BasePDFTest → String)
    (res : BasePDFTest → Option Bool) (ts : List BasePDFTest) :
    (groupFold groupOf res ts []).Perm (canonTable groupOf res ts) := by
  have hnd1 : (keysOf (groupFold groupOf res ts [])).Nodup :=
    nodup_keysOf_groupFold groupOf res ts [] (by simp [keysOf])
  have hkeys2 : keysOf (canonTable groupOf res ts) = (ts.map groupOf).dedup := by
    simp [canonTable, keysOf, List.map_map, Function.comp_def]
  have hnd2 : (keysOf (canonTable groupOf res ts)).Nodup := by
    rw [hkeys2]; exact List.nodup_dedup _
  have hl1 : (groupFold groupOf res ts []).Nodup := List.Nodup.of_map _ hnd1
  have hl2 : (canonTable groupOf res ts).Nodup := List.Nodup.of_map _ hnd2
  rw [List.perm_ext_iff_of_nodup hl1 hl2]
  rintro ⟨g, v⟩
  rw [← alookup_eq_some_iff_mem _ hnd1, ← alookup_eq_some_iff_mem _ hnd2]
  rw [alookup_groupFold]
  simp only [alookup, canonTable, alookup_map_mk, List.mem_dedup]

theorem meanOf_perm (l1 l2 : List ℚ) (h : l1.Perm l2) : meanOf l1 = meanOf l2 := by
  have hlen := h.length_eq
  have hsum := h.sum_eq
  have hiff : (l1 = []) ↔ (l2 = []) := by
    rw [← List.length_eq_zero, ← List.length_eq_zero, hlen]
  by_cases h1 : l1 = []
  · have h2 := hiff.mp h1
    simp [meanOf, h1, h2]
  · have h2 : l2 ≠ [] := fun hh => h1 (hiff.mpr hh)
    simp [meanOf, h1, h2, hsum, hlen]

theorem ratesOf_canonTable (groupOf : BasePDFTest → String)
    (res : BasePDFTest → Option Bool) (ts : List BasePDFTest) :
    ratesOf (canonTable groupOf res ts) =
      (ts.map groupOf).dedup.filterMap fun g =>
        if 0 < evalCnt groupOf res g ts then
          some ((passCnt groupOf res g ts : ℚ) / (evalCnt groupOf res g ts : ℚ))
        else none := by
  simp only [ratesOf, canonTable, List.filterMap_map]
  rfl

/-- The heart of C1: the final-summary score equals the spec-side
per-group mean. -/
theorem newOverallScore_eq_specGroupScore (groupOf : BasePDFTest → String)
    (res : BasePDFTest → Option Bool) (ts : List BasePDFTest) :
    newOverallScore groupOf res ts = specGroupScore groupOf res ts := by
  have hperm := (groupFold_perm_canonTable groupOf res ts).filterMap
    (fun e : String × Nat × Nat =>
      if 0 < e.2.1 then some ((e.2.2 : ℚ) / (e.2.1 : ℚ)) else none)
  have hmean := meanOf_perm _ _ hperm
  rw [newOverallScore, specGroupScore, ← ratesOf_canonTable groupOf res ts]
  exact hmean

/-- The flat list of per-assertion scores (`1.0` for a passed, `0.0` for a
failed evaluated assertion) — the alternative reading of the primary score
that the specification rules out. -/
def flatScores (res : BasePDFTest → Option Bool) (ts : List BasePDFTest) :
    List ℚ :=
  ts.filterMap fun t => (res t).map fun b => if b then (1 : ℚ) else 0

/-- Mean of the flat per-assertion score list. -/
def flatMeanScore (res : BasePDFTest → Option Bool) (ts : List BasePDFTest) : ℚ :=
  meanOf (flatScores res ts)

/-- A sample assertion on page 1 of `doc.pdf`. -/
def exTest (n : String) : BasePDFTest := ⟨n, "doc.pdf", 1, "present"⟩

/-- Unbalanced synthetic dataset: group A holds one passing assertion,
group B three failing ones. -/
def exTests : List BasePDFTest :=
  [exTest "t1", exTest "t2", exTest "t3", exTest "t4"]

/-- Group assignment for `exTests`. -/
def exMap : List (String × String) :=
  [("t1", "groupA"), ("t2", "groupB"), ("t3", "groupB"), ("t4", "groupB")]

/-- Recorded results for `exTests`: `t1` passed, the rest failed. -/
def exResults : TestResults :=
  [("doc.pdf", [(1, [(exTest "t1", true, "All repeats passed"),
                     (exTest "t2", false, "text missing"),
                     (exTest "t3", false, "text missing"),
                     (exTest "t4", false, "text missing")])])]

/-- C1: for a candidate without fatal errors, the final-summary score is
the unweighted mean over assertion groups (source JSONL files) of each
group's pass rate (passed over evaluated), groups with no evaluated
assertion being omitted, and `0` when no group has an evaluated assertion;
on the unbalanced synthetic dataset the score is `1/2` while the flat mean
over the individual per-assertion scores is `1/4`, so the two notions
differ. -/
theorem primary_score_is_mean_of_group_pass_rates
    (m : List (String × String)) (tr : TestResults) (tests : List BasePDFTest) :
    newOverallScore (groupOfTest m) (evalResult [] tr) tests =
      specGroupScore (groupOfTest m) (evalResult [] tr) tests ∧
    ((∀ g ∈ tests.map (groupOfTest m),
        evalCnt (groupOfTest m) (evalResult [] tr) g tests = 0) →
      newOverallScore (groupOfTest m) (evalResult [] tr) tests = 0) ∧
    newOverallScore (groupOfTest exMap) (evalResult [] exResults) exTests = 1 / 2 ∧
    flatMeanScore (evalResult [] exResults) exTests = 1 / 4 := by
  refine ⟨newOverallScore_eq_specGroupScore _ _ _, ?_, ?_, ?_⟩
  · intro hz
    rw [newOverallScore_eq_specGroupScore, specGroupScore]
    have hnil : ((tests.map (groupOfTest m)).dedup.filterMap fun g =>
        if 0 < evalCnt (groupOfTest m) (evalResult [] tr) g tests then
          some ((passCnt (groupOfTest m) (evalResult [] tr) g tests : ℚ) /
            (evalCnt (groupOfTest m) (evalResult [] tr) g tests : ℚ))
        else none) = [] := by
      rw [List.filterMap_eq_nil_iff]
      intro g hg
      rw [hz g (List.mem_dedup.mp hg)]
      simp
    rw [hnil]
    simp [meanOf]
  · rw [newOverallScore]
    rw [show groupFold (groupOfTest exMap) (evalResult [] exResults) exTests [] =
        [("groupA", 1, 1), ("groupB", 3, 0)] from rfl]
    rw [show ratesOf [("groupA", 1, 1), ("groupB", 3, 0)] =
        [((1 : Nat) : ℚ) / ((1 : Nat) : ℚ), ((0 : Nat) : ℚ) / ((3 : Nat) : ℚ)]
      from rfl]
    norm_num [meanOf]
  · rw [flatMeanScore]
    rw [show flatScores (evalResult [] exResults) exTests =
        [(1 : ℚ), 0, 0, 0] from rfl]
    norm_num [meanOf]

/-- Witness for `primary_score_is_mean_of_group_pass_rates`: with no
recorded results at all, no group has an evaluated assertion and the
final-summary score is `0`. -/
theorem primary_score_is_mean_of_group_pass_rates_witness :
    newOverallScore (groupOfTest exMap) (evalResult [] []) exTests = 0 :=
  (primary_score_is_mean_of_group_pass_rates exMap [] exTests).2.1 (by decide)

/-! ## Exclusion of assertions without generated documents (forced mode)

`process_test` returns `None` as the test average when the page has no
selected markdown file (`benchmark.py` lines 115–123); the aggregation
loop of `evaluate_candidate` (lines 169–186) then skips the test in every
statistic, and the per-group loop of `main` (lines 346–374) skips entries
whose explanation is the `"Missing MD files"` marker. -/

/-- What `process_test` hands to the aggregation loop. -/
structure ProcessOut where
  avgOpt : Option ℚ
  failureOpt : Option String
  testType : String
  localErrors : List String
  entry : Bool × String
  deriving Repr

/-- `process_test` (`benchmark.py` lines 90–159) for one assertion, given
the files selected for its page, the per-file evaluation outcome, and the
forced flag: with no page files the test is excluded (`None` average, the
`(False, "Missing MD files")` entry recorded, a candidate error only when
not forced); otherwise the repeat loop runs. -/
def processTestOut (t : BasePDFTest) (candidateName : String)
    (pageFiles : List String) (runDoc : String → RepeatOutcome)
    (force : Bool) : ProcessOut :=
  if pageFiles.isEmpty then
    { avgOpt := none
      failureOpt := none
      testType := t.type
      localErrors :=
        if force then []
        else ["Candidate " ++ candidateName ++ " is missing MD repeats for " ++
          t.pdf ++ " page " ++ toString t.page]
      entry := (false, "Missing MD files") }
  else
    let st := processRepeats (pageFiles.map runDoc)
    { avgOpt := some (testAvg st)
      failureOpt :=
        if testAvg st < 1 then
          some ("Test " ++ t.id ++ " on " ++ t.pdf ++ " page " ++
            toString t.page ++ " average pass ratio below 1")
        else none
      testType := t.type
      localErrors := st.localErrors
      entry := (finalPassed st, st.explanations.headD "All repeats passed") }

/-- Accumulators of the `as_completed` loop in `evaluate_candidate`. -/
structure AggState where
  allTestScores : List ℚ
  totalTestScore : ℚ
  evaluatedTestCount : Nat
  typeBreakdown : List (String × List ℚ)
  testFailures : List String
  candidateErrors : List String
  deriving Repr

/-- Append a score to the per-type breakdown dictionary. -/
def addToType (tb : List (String × List ℚ)) (ty : String) (v : ℚ) :
    List (String × List ℚ) :=
  match tb with
  | [] => [(ty, [v])]
  | (k, vs) :: rest =>
      if k = ty then (k, vs ++ [v]) :: rest else (k, vs) :: addToType rest ty v

/-- One iteration of the aggregation loop (`benchmark.py` lines 169–184):
a `None` average is skipped in every score statistic; failures and local
errors are always appended. -/
def aggStep (st : AggState) (r : ProcessOut) : AggState :=
  let st1 :=
    match r.avgOpt with
    | none => st
    | some v =>
        { st with
          allTestScores := st.allTestScores ++ [v]
          totalTestScore := st.totalTestScore + v
          evaluatedTestCount := st.evaluatedTestCount + 1
          typeBreakdown := addToType st.typeBreakdown r.testType v }
  let st2 :=
    match r.failureOpt with
    | none => st1
    | some f => { st1 with testFailures := st1.testFailures ++ [f] }
  { st2 with candidateErrors := st2.candidateErrors ++ r.localErrors }

/-- The whole aggregation loop over the per-test results. -/
def aggregate (rs : List ProcessOut) : AggState :=
  rs.foldl aggStep ⟨[], 0, 0, [], [], []⟩

/-- Update of the per-group score-list table (`benchmark.py` lines
350–367): the entry is created on first sight of the group, and an
evaluated result appends its `1.0`/`0.0` score. -/
def updGS (acc : List (String × List ℚ)) (g : String) (r : Option Bool) :
    List (String × List ℚ) :=
  match acc with
  | [] => [(g, match r with | none => [] | some b => [if b then (1 : ℚ) else 0])]
  | (k, vs) :: rest =>
      if k = g then
        (k, vs ++ match r with | none => [] | some b => [if b then (1 : ℚ) else 0])
          :: rest
      else (k, vs) :: updGS rest g r

/-- The per-group score-collection loop of `main` (lines 346–368). -/
def scoresFold (groupOf : BasePDFTest → String) (res : BasePDFTest → Option Bool) :
    List BasePDFTest → List (String × List ℚ) → List (String × List ℚ)
  | [], acc => acc
  | t :: ts, acc => scoresFold groupOf res ts (updGS acc (groupOf t) (res t))

/-- Concatenate the nonempty per-group score lists in table order
(`benchmark.py` lines 370–374). -/
def collectScores : List (String × List ℚ) → List ℚ
  | [] => []
  | e :: rest => (if e.2.isEmpty then [] else e.2) ++ collectScores rest

/-- `jsonl_scores`: the flat list of per-assertion scores handed to the
bootstrap, grouped by source file. -/
def jsonlScores (groupOf : BasePDFTest → String) (res : BasePDFTest → Option Bool)
    (tests : List BasePDFTest) : List ℚ :=
  collectScores (scoresFold groupOf res tests [])

theorem ratesOf_updG_none (acc : List (String × Nat × Nat)) (g : String) :
    ratesOf (updG acc g none) = ratesOf acc := by
  induction acc with
  | nil => simp [updG, ratesOf, bumpCount]
  | cons e rest ih =>
      obtain ⟨k, v⟩ := e
      by_cases hk : k = g
      · simp [updG, hk, bumpCount]
      · simp only [ratesOf] at ih ⊢
        simp only [updG, if_neg hk, List.filterMap_cons]
        rw [ih]

theorem collectScores_updGS_none (acc : List (String × List ℚ)) (g : String) :
    collectScores (updGS acc g none) = collectScores acc := by
  induction acc with
  | nil => simp [updGS, collectScores]
  | cons e rest ih =>
      obtain ⟨k, vs⟩ := e
      by_cases hk : k = g
      · simp [updGS, hk, collectScores]
      · simp [updGS, hk, collectScores, ih]

/-- C5: in forced mode an assertion whose page has no generated document
is excluded from scoring, not failed: `process_test` returns a `None`
average with no candidate error and records the `"Missing MD files"`
entry; the aggregation loop leaves the flat score list, the score total,
the evaluated-test denominator and the per-type breakdown untouched for a
`None` average; the summary lookup maps a `"Missing MD files"` entry to
`none`; and a `none` result changes neither the per-group pass-rate list
nor the flat score list used for bootstrap resampling. -/
theorem forced_missing_page_assertion_excluded
    (t : BasePDFTest) (candidateName : String) (runDoc : String → RepeatOutcome) :
    (processTestOut t candidateName [] runDoc true).avgOpt = none ∧
    (processTestOut t candidateName [] runDoc true).localErrors = [] ∧
    (processTestOut t candidateName [] runDoc true).entry =
      (false, "Missing MD files") ∧
    (∀ (st : AggState) (r : ProcessOut), r.avgOpt = none →
      (aggStep st r).allTestScores = st.allTestScores ∧
      (aggStep st r).totalTestScore = st.totalTestScore ∧
      (aggStep st r).evaluatedTestCount = st.evaluatedTestCount ∧
      (aggStep st r).typeBreakdown = st.typeBreakdown) ∧
    (∀ (tr : TestResults) (t2 : BasePDFTest) (entries : List ResultEntry)
        (e : ResultEntry),
      lookupPage tr t2.pdf t2.page = some entries →
      entries.find? (fun e2 => e2.1.id = t2.id) = some e →
      e.2.2 = "Missing MD files" →
      evalResult [] tr t2 = none) ∧
    (∀ (acc : List (String × Nat × Nat)) (g : String),
      ratesOf (updG acc g none) = ratesOf acc) ∧
    (∀ (acc : List (String × List ℚ)) (g : String),
      collectScores (updGS acc g none) = collectScores acc) := by
  refine ⟨rfl, rfl, rfl, ?_, ?_, ratesOf_updG_none, collectScores_updGS_none⟩
  · intro st r hr
    cases hf : r.failureOpt <;>
      simp [aggStep, hr, hf]
  · intro tr t2 entries e hpage hfind hexp
    rw [evalResult]
    simp only [List.isEmpty_nil, if_true, hpage, hfind, hexp, if_pos rfl]

/-- Witness for `forced_missing_page_assertion_excluded` at concrete
inputs: a forced run with no page files, an aggregation step over the
excluded result, and a recorded `"Missing MD files"` entry. -/
theorem forced_missing_page_assertion_excluded_witness :
    (processTestOut (exTest "t9") "cand" [] (fun _ => RepeatOutcome.readError "")
        true).avgOpt = none ∧
    (aggregate [processTestOut (exTest "t9") "cand" []
        (fun _ => RepeatOutcome.readError "") true]).evaluatedTestCount = 0 ∧
    evalResult []
        [("doc.pdf", [(1, [(exTest "t9", false, "Missing MD files")])])]
        (exTest "t9") = none := by
  have h := forced_missing_page_assertion_excluded (exTest "t9") "cand"
    (fun _ => RepeatOutcome.readError "")
  refine ⟨h.1, ?_, ?_⟩
  · have h4 := (h.2.2.2.1 ⟨[], 0, 0, [], [], []⟩
      (processTestOut (exTest "t9") "cand" [] (fun _ => RepeatOutcome.readError "")
        true) h.1).2.2.1
    simpa [aggregate] using h4
  · exact h.2.2.2.2.1
      [("doc.pdf", [(1, [(exTest "t9", false, "Missing MD files")])])]
      (exTest "t9") [(exTest "t9", false, "Missing MD files")]
      (exTest "t9", false, "Missing MD files") rfl rfl rfl

/-! ## Confidence-interval guard -/

/-- The confidence interval reported by `main` (`benchmark.py` lines
376–380): `calculate_bootstrap_ci` (in `olmocr/bench/utils.py`, abstracted
here as the function argument) is called only on a nonempty score list; an
empty list yields the degenerate interval `(0.0, 0.0)` without calling it,
so no exception can arise from the empty case. -/
def ciOfScores (bootstrapCI : List ℚ → List Nat → ℚ × ℚ)
    (scores : List ℚ) (splits : List Nat) : ℚ × ℚ :=
  if scores.isEmpty then (0, 0) else bootstrapCI scores splits

/-- C6: whenever the score list supplied to the bootstrap computation is
empty, the reported confidence interval is exactly `(0.0, 0.0)`, whatever
the bootstrap function and splits are — the bootstrap is never invoked. -/
theorem empty_scores_degenerate_ci (bootstrapCI : List ℚ → List Nat → ℚ × ℚ)
    (scores : List ℚ) (splits : List Nat) (h : scores = []) :
    ciOfScores bootstrapCI scores splits = (0, 0) := by
  rw [ciOfScores, h]
  rfl

/-- Witness for `empty_scores_degenerate_ci` with a bootstrap function
that would report a different interval if it were called. -/
theorem empty_scores_degenerate_ci_witness :
    ciOfScores (fun _ _ => (1, 1)) [] [0] = (0, 0) :=
  empty_scores_degenerate_ci (fun _ _ => (1, 1)) [] [0] rfl

/-! ## Baseline-test augmentation -/

/-- The synthetic baseline test `BaselineTest(id=f"{pdf}_baseline",
pdf=pdf, page=1, type="baseline")` (`benchmark.py` line 283). -/
def mkBaselineTest (pdf : String) : BasePDFTest :=
  ⟨pdf ++ "_baseline", pdf, 1, "baseline"⟩

/-- The augmentation loop of `main` (`benchmark.py` lines 281–284),
threading the growing test list and the `test_to_jsonl` map (a map write
is modelled by prepending, so the newest binding wins on lookup). -/
def addBaselinesAux :
    List String → List BasePDFTest × List (String × String) →
      List BasePDFTest × List (String × String)
  | [], acc => acc
  | pdf :: rest, acc =>
      addBaselinesAux rest
        (if acc.1.any fun t => decide (t.pdf = pdf) && decide (t.type = "baseline")
         then acc
         else (acc.1 ++ [mkBaselineTest pdf],
           (pdf ++ "_baseline", "baseline") :: acc.2))

/-- Augment the loaded tests with synthetic baselines for all PDFs. -/
def addBaselines (pdfs : List String) (tests : List BasePDFTest)
    (m : List (String × String)) : List BasePDFTest × List (String × String) :=
  addBaselinesAux pdfs (tests, m)

/-- The per-page coverage check of `main` (`benchmark.py` line 289):
some test targets this PDF page. -/
def pageHasTest (ts : List BasePDFTest) (pdf : String) (page : Nat) : Bool :=
  ts.any fun t => decide (t.pdf = pdf) && decide (t.page = page)

theorem addBaselinesAux_mem_mono :
    ∀ (pdfs : List String) (acc : List BasePDFTest × List (String × String))
      (t : BasePDFTest), t ∈ acc.1 → t ∈ (addBaselinesAux pdfs acc).1 := by
  intro pdfs
  induction pdfs with
  | nil => intro acc t h; exact h
  | cons pdf rest ih =>
      intro acc t h
      rw [addBaselinesAux]
      by_cases hc : acc.1.any fun t =>
          decide (t.pdf = pdf) && decide (t.type = "baseline")
      · rw [if_pos hc]; exact ih acc t h
      · rw [if_neg hc]
        exact ih _ t (List.mem_append.mpr (Or.inl h))

theorem addBaselinesAux_map_baseline :
    ∀ (pdfs : List String) (acc : List BasePDFTest × List (String × String))
      (key : String), alookup key acc.2 = some "baseline" →
      alookup key (addBaselinesAux pdfs acc).2 = some "baseline" := by
  intro pdfs
  induction pdfs with
  | nil => intro acc key h; exact h
  | cons pdf rest ih =>
      intro acc key h
      rw [addBaselinesAux]
      by_cases hc : acc.1.any fun t =>
          decide (t.pdf = pdf) && decide (t.type = "baseline")
      · rw [if_pos hc]; exact ih acc key h
      · rw [if_neg hc]
        apply ih
        show alookup key ((pdf ++ "_baseline", "baseline") :: acc.2) = some "baseline"
        by_cases hk : pdf ++ "_baseline" = key
        · simp [alookup, hk]
        · simp [alookup, hk, h]

theorem addBaselinesAux_exists_baseline :
    ∀ (pdfs : List String) (acc : List BasePDFTest × List (String × String))
      (pdf : String), pdf ∈ pdfs →
      ∃ t ∈ (addBaselinesAux pdfs acc).1, t.pdf = pdf ∧ t.type = "baseline" := by
  intro pdfs
  induction pdfs with
  | nil => intro acc pdf h; exact absurd h (List.not_mem_nil pdf)
  | cons p rest ih =>
      intro acc pdf h
      rw [addBaselinesAux]
      rcases List.mem_cons.mp h with heq | hmem
      · subst heq
        by_cases hc : acc.1.any fun t =>
            decide (t.pdf = pdf) && decide (t.type = "baseline")
        · rw [if_pos hc]
          obtain ⟨t, ht, hp⟩ := List.any_eq_true.mp hc
          have hp2 : t.pdf = pdf ∧ t.type = "baseline" := by simpa using hp
          exact ⟨t, addBaselinesAux_mem_mono rest acc t ht, hp2⟩
        · rw [if_neg hc]
          refine ⟨mkBaselineTest pdf, ?_, rfl, rfl⟩
          exact addBaselinesAux_mem_mono rest _ _
            (List.mem_append.mpr (Or.inr (List.mem_singleton.mpr rfl)))
      · by_cases hc : acc.1.any fun t =>
            decide (t.pdf = p) && decide (t.type = "baseline")
        · rw [if_pos hc]; exact ih acc pdf hmem
        · rw [if_neg hc]; exact ih _ pdf hmem

/-- Once the synthetic baseline for `pdf` is in the accumulator, it stays,
together with its group binding. -/
theorem addBaselinesAux_of_present (pdfs : List String)
    (acc : List BasePDFTest × List (String × String)) (pdf : String)
    (h1 : mkBaselineTest pdf ∈ acc.1)
    (h2 : alookup (pdf ++ "_baseline") acc.2 = some "baseline") :
    mkBaselineTest pdf ∈ (addBaselinesAux pdfs acc).1 ∧
      alookup (pdf ++ "_baseline") (addBaselinesAux pdfs acc).2 =
        some "baseline" :=
  ⟨addBaselinesAux_mem_mono pdfs acc _ h1,
    addBaselinesAux_map_baseline pdfs acc _ h2⟩

theorem addBaselinesAux_adds_missing :
    ∀ (pdfs : List String) (acc : List BasePDFTest × List (String × String))
      (pdf : String), pdf ∈ pdfs →
      (∀ t ∈ acc.1, ¬(t.pdf = pdf ∧ t.type = "baseline")) →
      mkBaselineTest pdf ∈ (addBaselinesAux pdfs acc).1 ∧
        alookup (pdf ++ "_baseline") (addBaselinesAux pdfs acc).2 =
          some "baseline" := by
  intro pdfs
  induction pdfs with
  | nil => intro acc pdf h _; exact absurd h (List.not_mem_nil pdf)
  | cons p rest ih =>
      intro acc pdf hmem hnone
      rw [addBaselinesAux]
      rcases List.mem_cons.mp hmem with heq | hmem2
      · subst heq
        have hc : ¬(acc.1.any fun t =>
            decide (t.pdf = pdf) && decide (t.type = "baseline")) = true := by
          intro hc
          obtain ⟨t, ht, hp⟩ := List.any_eq_true.mp hc
          exact hnone t ht (by simpa using hp)
        rw [if_neg hc]
        refine addBaselinesAux_of_present rest _ pdf ?_ ?_
        · exact List.mem_append.mpr (Or.inr (List.mem_singleton.mpr rfl))
        · simp [alookup]
      · by_cases hc : acc.1.any fun t =>
            decide (t.pdf = p) && decide (t.type = "baseline")
        · rw [if_pos hc]; exact ih acc pdf hmem2 hnone
        · rw [if_neg hc]
          by_cases hp : p = pdf
          · subst hp
            refine addBaselinesAux_of_present rest _ p ?_ ?_
            · exact List.mem_append.mpr (Or.inr (List.mem_singleton.mpr rfl))
            · simp [alookup]
          · refine ih _ pdf hmem2 ?_
            intro t ht
            rcases List.mem_append.mp ht with h1 | h2
            · exact hnone t h1
            · rw [List.mem_singleton.mp h2]
              intro hcontra
              exact hp hcontra.1

/-- C9: after loading, every expected PDF has a baseline-type assertion:
a PDF lacking one among the loaded tests gets the synthetic test
`{pdf}_baseline` on page 1, bound to the group named `baseline`, so the
fatal zero-assertions check never fires for page 1 of such a PDF. -/
theorem baseline_augmentation_covers_page_one (pdfs : List String)
    (tests : List BasePDFTest) (m : List (String × String)) :
    (∀ pdf ∈ pdfs, ∃ t ∈ (addBaselines pdfs tests m).1,
      t.pdf = pdf ∧ t.type = "baseline") ∧
    (∀ pdf ∈ pdfs, (∀ t ∈ tests, ¬(t.pdf = pdf ∧ t.type = "baseline")) →
      mkBaselineTest pdf ∈ (addBaselines pdfs tests m).1 ∧
      (mkBaselineTest pdf).id = pdf ++ "_baseline" ∧
      (mkBaselineTest pdf).page = 1 ∧
      (mkBaselineTest pdf).type = "baseline" ∧
      alookup (pdf ++ "_baseline") (addBaselines pdfs tests m).2 =
        some "baseline" ∧
      pageHasTest (addBaselines pdfs tests m).1 pdf 1 = true) := by
  constructor
  · intro pdf h
    exact addBaselinesAux_exists_baseline pdfs (tests, m) pdf h
  · intro pdf h hnone
    obtain ⟨hm, hmap⟩ := addBaselinesAux_adds_missing pdfs (tests, m) pdf h hnone
    refine ⟨hm, rfl, rfl, rfl, hmap, ?_⟩
    rw [pageHasTest, List.any_eq_true]
    exact ⟨mkBaselineTest pdf, hm, by simp [mkBaselineTest]⟩

/-- Witness for `baseline_augmentation_covers_page_one` on a concrete
dataset with one PDF and no loaded baseline test. -/
theorem baseline_augmentation_covers_page_one_witness :
    (∃ t ∈ (addBaselines ["a.pdf"] [exTest "t1"] []).1,
      t.pdf = "a.pdf" ∧ t.type = "baseline") ∧
    mkBaselineTest "a.pdf" ∈ (addBaselines ["a.pdf"] [exTest "t1"] []).1 ∧
    alookup ("a.pdf" ++ "_baseline") (addBaselines ["a.pdf"] [exTest "t1"] []).2 =
      some "baseline" ∧
    pageHasTest (addBaselines ["a.pdf"] [exTest "t1"] []).1 "a.pdf" 1 = true := by
  have h := baseline_augmentation_covers_page_one ["a.pdf"] [exTest "t1"] []
  have h2 := h.2 "a.pdf" (by decide) (by decide)
  exact ⟨h.1 "a.pdf" (by decide), h2.1, h2.2.2.2.2.1, h2.2.2.2.2.2⟩

/-! ## Startup checks of `main`

The filesystem facts `main` consults before evaluating any candidate are
collected in a `BenchEnv` record: whether the `pdfs` folder exists, which
PDF files and `.jsonl` files were found, the flags, the tests each
`.jsonl` file yields (the loader `load_tests` lives in
`olmocr/bench/tests.py` and is abstracted as data), and each PDF's page
count. `mainStartup` replays `benchmark.py` lines 240–294: each `sys.exit(1)`
is an `Except.error 1`, and candidate evaluation happens only after an
`Except.ok`. -/

structure BenchEnv where
  pdfFolderExists : Bool
  pdfFiles : List String
  jsonlFilesRaw : List String
  skipMath : Bool
  force : Bool
  skipBaseline : Bool
  loadTests : List (String × List BasePDFTest)
  pageCounts : List (String × Nat)

/-- Lower-case a string character by character (for the `math` filter). -/
def toLowerStr (s : String) : String := String.mk (s.toList.map Char.toLower)

/-- The dataset files after the backup filter (line 257) and the optional
`--skip_math` filter (line 261). -/
def filteredJsonl (env : BenchEnv) : List String :=
  let j1 := filterJsonlFiles env.jsonlFilesRaw
  if env.skipMath then
    j1.filter fun f => !containsSub "math".toList (toLowerStr f).toList
  else j1

/-- Tests loaded from one dataset file. -/
def testsOfJsonl (env : BenchEnv) (j : String) : List BasePDFTest :=
  (alookup j env.loadTests).getD []

/-- `all_tests` after loading every surviving dataset file (lines 268–275). -/
def loadedTests (env : BenchEnv) : List BasePDFTest :=
  (filteredJsonl env).flatMap (testsOfJsonl env)

/-- The test list after baseline augmentation (lines 281–284). -/
def augmentedTests (env : BenchEnv) : List BasePDFTest :=
  (addBaselines env.pdfFiles (loadedTests env) []).1

/-- Page count of one PDF (`len(PdfReader(...).pages)`). -/
def numPagesOf (env : BenchEnv) (pdf : String) : Nat :=
  (alookup pdf env.pageCounts).getD 0

/-- The fatal coverage check of lines 286–291: some page 1..n of some PDF
has no assertion at all. -/
def somePageUncovered (env : BenchEnv) : Bool :=
  env.pdfFiles.any fun pdf =>
    (List.range' 1 (numPagesOf env pdf)).any fun page =>
      !pageHasTest (augmentedTests env) pdf page

/-- The startup phase of `main`: every dataset-integrity failure exits
with status 1 before any candidate is touched; on success the final test
list (after the optional `--skip_baseline` filter, line 294) is handed to
candidate evaluation. -/
def mainStartup (env : BenchEnv) : Except Nat (List BasePDFTest) :=
  if !env.pdfFolderExists then .error 1
  else if env.pdfFiles.isEmpty then .error 1
  else if (filteredJsonl env).isEmpty then .error 1
  else if (loadedTests env).isEmpty then .error 1
  else if !env.force && somePageUncovered env then .error 1
  else .ok (if env.skipBaseline then
    (augmentedTests env).filter fun t => t.type ≠ "baseline"
  else augmentedTests env)

/-- Candidates are evaluated only when the startup phase succeeds. -/
def evaluatedCandidates (env : BenchEnv) (candidates : List String) :
    List String :=
  match mainStartup env with
  | .error _ => []
  | .ok _ => candidates

theorem mainStartup_error_or_checks (env : BenchEnv) :
    mainStartup env = Except.error 1 ∨
    (env.pdfFolderExists = true ∧ env.pdfFiles ≠ [] ∧ filteredJsonl env ≠ [] ∧
      loadedTests env ≠ [] ∧
      (env.force = true ∨ somePageUncovered env = false)) := by
  rw [mainStartup]
  by_cases h1 : env.pdfFolderExists = true
  · by_cases h2 : env.pdfFiles.isEmpty = true
    · left; simp [h1, h2]
    · by_cases h3 : (filteredJsonl env).isEmpty = true
      · left; simp [h1, h2, h3]
      · by_cases h4 : (loadedTests env).isEmpty = true
        · left; simp [h1, h2, h3, h4]
        · by_cases h5 : (!env.force && somePageUncovered env) = true
          · left; simp [h1, h2, h3, h4, h5]
          · right
            rw [Bool.and_eq_true] at h5
            push_neg at h5
            refine ⟨h1, ?_, ?_, ?_, ?_⟩
            · simpa [List.isEmpty_iff] using h2
            · simpa [List.isEmpty_iff] using h3
            · simpa [List.isEmpty_iff] using h4
            · by_cases hf : env.force = true
              · exact Or.inl hf
              · right
                have hff : env.force = false := by
                  cases henv : env.force
                  · rfl
                  · exact absurd henv hf
                have hnt := h5 (by rw [hff]; rfl)
                cases hsp : somePageUncovered env
                · rfl
                · exact absurd hsp hnt
  · left
    have h1f : env.pdfFolderExists = false := by
      cases henv : env.pdfFolderExists
      · rfl
      · exact absurd henv h1
    simp [h1f]

/-- C7: the run terminates with exit status 1 — and evaluates no
candidate — when the pdfs folder is missing, when no PDF file was found,
when no assertion (`.jsonl`) file survives the filters, when no assertion
was loadable from them, or, unless forced, when some expected PDF page has
no assertion after baseline augmentation. -/
theorem dataset_integrity_failures_abort (env : BenchEnv) :
    (env.pdfFolderExists = false → mainStartup env = Except.error 1) ∧
    (env.pdfFiles = [] → mainStartup env = Except.error 1) ∧
    (filteredJsonl env = [] → mainStartup env = Except.error 1) ∧
    (loadedTests env = [] → mainStartup env = Except.error 1) ∧
    (env.force = false → somePageUncovered env = true →
      mainStartup env = Except.error 1) ∧
    (∀ candidates, mainStartup env = Except.error 1 →
      evaluatedCandidates env candidates = []) := by
  have hcases := mainStartup_error_or_checks env
  refine ⟨?_, ?_, ?_, ?_, ?_, ?_⟩
  · intro h
    rcases hcases with he | ⟨h1, _⟩
    · exact he
    · rw [h] at h1
      exact absurd h1 (by decide)
  · intro h
    rcases hcases with he | ⟨_, h2, _⟩
    · exact he
    · exact absurd h h2
  · intro h
    rcases hcases with he | ⟨_, _, h3, _⟩
    · exact he
    · exact absurd h h3
  · intro h
    rcases hcases with he | ⟨_, _, _, h4, _⟩
    · exact he
    · exact absurd h h4
  · intro hf hsp
    rcases hcases with he | ⟨_, _, _, _, h5⟩
    · exact he
    · rcases h5 with h5a | h5b
      · rw [hf] at h5a
        exact absurd h5a (by decide)
      · rw [hsp] at h5b
        exact absurd h5b (by decide)
  · intro cands he
    rw [evaluatedCandidates, he]

/-- An environment whose pdfs folder is missing. -/
def exEnvNoPdfs : BenchEnv :=
  { pdfFolderExists := false, pdfFiles := [], jsonlFilesRaw := [],
    skipMath := false, force := false, skipBaseline := false,
    loadTests := [], pageCounts := [] }

/-- Witness for `dataset_integrity_failures_abort`: with the pdfs folder
missing the run exits with status 1 and no candidate is evaluated. -/
theorem dataset_integrity_failures_abort_witness :
    mainStartup exEnvNoPdfs = Except.error 1 ∧
    evaluatedCandidates exEnvNoPdfs ["candidateA"] = [] := by
  have h := dataset_integrity_failures_abort exEnvNoPdfs
  exact ⟨h.1 rfl, h.2.2.2.2.2 ["candidateA"] (h.1 rfl)⟩

/-! ## Failed-assertion export

`main` (`benchmark.py` lines 507–546): for every test, walk the
candidates without errors; a test is exported when at least one of them
recorded a result for it and none of them recorded a pass. The candidates
are modelled as `(name, candidate_errors, test_results)` triples. -/

/-- One candidate as seen by the export loop. -/
abbrev CandidateRun := String × List String × TestResults

/-- The recorded result of one test for one candidate (lines 521–531):
the first entry on the test's PDF page whose id matches, with no filtering
on the explanation — a `"Missing MD files"` entry counts as a recorded
failure here. -/
def candidateResult (tr : TestResults) (t : BasePDFTest) : Option Bool :=
  match lookupPage tr t.pdf t.page with
  | none => none
  | some entries => (entries.find? fun e => e.1.id = t.id).map fun e => e.2.1

/-- `valid_candidates`: candidates with an empty error list (line 511). -/
def validCandidates (cands : List CandidateRun) : List CandidateRun :=
  cands.filter fun c => c.2.1.isEmpty

/-- `has_results and not any_passed` for one test (lines 513–536). -/
def failedEverywhere (cands : List CandidateRun) (t : BasePDFTest) : Bool :=
  ((validCandidates cands).any fun c => (candidateResult c.2.2 t).isSome) &&
    !((validCandidates cands).any fun c => candidateResult c.2.2 t = some true)

/-- `all_failed_tests` in `all_tests` order. -/
def allFailedTests (tests : List BasePDFTest) (cands : List CandidateRun) :
    List BasePDFTest :=
  tests.filter (failedEverywhere cands)

/-- The export: `save_tests` is called only when the list is nonempty;
`none` models "no output file created" (lines 541–546). -/
def exportFailed (tests : List BasePDFTest) (cands : List CandidateRun) :
    Option (List BasePDFTest) :=
  if (allFailedTests tests cands).isEmpty then none
  else some (allFailedTests tests cands)

/-- C8: the exported file holds exactly the assertions that, over the
candidates without fatal errors, have at least one recorded result and a
recorded pass for none; when no assertion qualifies, no file is
created. -/
theorem export_failed_iff_failed_for_all (tests : List BasePDFTest)
    (cands : List CandidateRun) :
    (∀ t : BasePDFTest,
      (∃ l, exportFailed tests cands = some l ∧ t ∈ l) ↔
        (t ∈ tests ∧
          (∃ c ∈ validCandidates cands, (candidateResult c.2.2 t).isSome) ∧
          (∀ c ∈ validCandidates cands, candidateResult c.2.2 t ≠ some true))) ∧
    (exportFailed tests cands = none ↔
      ∀ t ∈ tests, failedEverywhere cands t = false) := by
  constructor
  · intro t
    have hchar : failedEverywhere cands t = true ↔
        ((∃ c ∈ validCandidates cands, (candidateResult c.2.2 t).isSome) ∧
          (∀ c ∈ validCandidates cands, candidateResult c.2.2 t ≠ some true)) := by
      rw [failedEverywhere, Bool.and_eq_true]
      simp [List.any_eq_true, List.any_eq_false]
    constructor
    · rintro ⟨l, hsome, hmem⟩
      rw [exportFailed] at hsome
      by_cases he : (allFailedTests tests cands).isEmpty
      · rw [if_pos he] at hsome
        exact absurd hsome (by simp)
      · rw [if_neg he] at hsome
        injection hsome with hsome
        rw [← hsome] at hmem
        have hmem2 := List.mem_filter.mp hmem
        exact ⟨hmem2.1, hchar.mp hmem2.2⟩
    · rintro ⟨hmem, hex, hall⟩
      have hfe : failedEverywhere cands t = true := hchar.mpr ⟨hex, hall⟩
      have hin : t ∈ allFailedTests tests cands :=
        List.mem_filter.mpr ⟨hmem, hfe⟩
      have hne : ¬(allFailedTests tests cands).isEmpty = true := by
        intro hemp
        rw [List.isEmpty_iff] at hemp
        rw [hemp] at hin
        exact absurd hin (List.not_mem_nil t)
      exact ⟨allFailedTests tests cands, by rw [exportFailed, if_neg hne], hin⟩
  · rw [exportFailed]
    by_cases he : (allFailedTests tests cands).isEmpty
    · rw [if_pos he]
      rw [List.isEmpty_iff] at he
      simp only [true_iff]
      intro t ht
      cases hfe : failedEverywhere cands t
      · rfl
      · have : t ∈ allFailedTests tests cands := List.mem_filter.mpr ⟨ht, hfe⟩
        rw [he] at this
        exact absurd this (List.not_mem_nil t)
    · rw [if_neg he]
      constructor
      · intro h; exact absurd h (by simp)
      · intro hall
        exfalso
        apply he
        rw [List.isEmpty_iff]
        rw [allFailedTests, List.filter_eq_nil_iff]
        intro t ht
        rw [hall t ht]
        simp

/-- Witness for `export_failed_iff_failed_for_all`: with no candidates at
all no assertion has a recorded result, so no output file is created. -/
theorem export_failed_iff_failed_for_all_witness :
    exportFailed exTests [] = none :=
  (export_failed_iff_failed_for_all exTests []).2.mpr (by decide)
